import Mathlib

/-!
Shallow embedding of the Route Matching & Waypoint Projection Engine of the
synthetic-maritime-data-gen repository, and proofs checking its specification.

Sources embedded here:
 - `src/better_route_finder.py` (class `BetterRouteFinder`)
 - `src/maritime/waypoint_calculator.py` (class `WaypointCalculator`)
 - `src/maritime/geo_utils.py` (`get_bisected_point`)
 - `src/maritime/route_finder.py` (class `RouteFinder`)
 - `src/route_finder.py` (`RouteFinder.get_next_waypoints`)
 - `src/better-ship-agent-chat.py` (`get_possible_ship_route`)

Modelling conventions:
 - Coordinates are pairs of rationals (the Python floats are modelled by exact
   rational arithmetic; no claim here concerns rounding).
 - Python exceptions are modelled by `Except PyErr`; a `ZeroDivisionError` is
   raised exactly when the divisor is zero, matching CPython semantics for both
   int and float division.
 - The transcendental geometric primitives that the code takes from shapely,
   geopy and `math` (Euclidean `LineString.length` / `Point.distance`, the
   spherical `calculate_heading` bearing, `LineString.project`,
   `LineString.interpolate`, and `geodesic(...).destination`) are grouped into
   a `Geo` record of function parameters: every theorem below is either
   independent of their values or instantiates them on inputs (horizontal
   chords) where the exact rational value of the shapely Euclidean metric is
   known.  The control flow, unit constants and arithmetic of the Python code
   are embedded verbatim.
-/

/-- A coordinate, `(longitude, latitude)` in decimal degrees. -/
abbrev Pt := ℚ × ℚ

/-- The Python exceptions the embedded code can raise. -/
inductive PyErr where
  | attributeError
  | zeroDivisionError
  | indexError
deriving DecidableEq, Repr

/-- Geometric primitives the Python code obtains from shapely / geopy / math.
`dist` models both `Point.distance` and the length of a two-point
`LineString` (shapely computes the same planar Euclidean value for both);
`bearing` models `calculate_heading` (spherical initial bearing, degrees in
[0,360)); `projOnto` models `LineString.project`; `interpAt` models
`LineString.interpolate` on a whole polyline; `geoDest` models
`geodesic(nautical=d).destination(point, heading)`. -/
structure Geo where
  dist : Pt → Pt → ℚ
  bearing : Pt → Pt → ℚ
  projOnto : List Pt → Pt → ℚ
  interpAt : List Pt → ℚ → Pt
  geoDest : ℚ → Pt → ℚ → Pt

/-- Shapely `line.interpolate(f, normalized=True)` on the two-point line
`p1→p2`: linear interpolation with the fraction clamped into [0,1].
(Only fractions in [0,1] arise in this repository: `distance_nm ≥ 0`
whenever the function is reached, and every call site bounds the fraction
by 1 or relies on the clamp.) -/
def interpolateNormalized (p1 p2 : Pt) (f : ℚ) : Pt :=
  if f ≤ 0 then p1
  else if 1 ≤ f then p2
  else (p1.1 + f * (p2.1 - p1.1), p1.2 + f * (p2.2 - p1.2))

/-- Embeds `maritime/geo_utils.get_bisected_point` (lines 36-66), which is
textually identical to `BetterRouteFinder._get_bisected_point`
(`better_route_finder.py` lines 651-685): chord length in degrees times 60
gives nautical miles; `fraction = distance_nm / total_distance_nm` raises
`ZeroDivisionError` exactly when the chord length is zero. -/
def getBisectedPoint (g : Geo) (p1 p2 : Pt) (distanceNm : ℚ) : Except PyErr Pt :=
  let totalDistanceDeg := g.dist p1 p2
  let totalDistanceNm := totalDistanceDeg * 60
  if totalDistanceNm = 0 then .error .zeroDivisionError
  else .ok (interpolateNormalized p1 p2 (distanceNm / totalDistanceNm))

/-- The body of the `for i in range(1, len(coords))` loop of
`BetterRouteFinder.get_waypoints` (`better_route_finder.py` lines 607-649),
as a recursion on the number of remaining loop iterations (`len(coords) - 1`
at the top call, mirroring the Python `range`).  State: `cur` is
`current_coord`, `idx` the moving index, `rem` the `remaining_distance`
accumulator, `acc` the reversed `waypoints` list.  `degToNm` is the
degree-to-nautical-mile factor of line 617 (53.4 in the source). -/
def betterWalkLoop (g : Geo) (coords : List Pt) (degToNm distancePerWaypoint : ℚ)
    (numWaypoints : ℕ) : ℕ → Pt → ℕ → ℚ → List Pt → Except PyErr (List Pt)
  | 0, _, _, _, acc => .ok acc.reverse
  | iters + 1, cur, idx, rem, acc =>
    match coords.get? idx with
    | none => .error .indexError
    | some target =>
      let segmentLengthNm := g.dist cur target * degToNm
      if segmentLengthNm < rem then
        -- consume the whole segment
        if numWaypoints ≤ acc.length then .ok acc.reverse
        else betterWalkLoop g coords degToNm distancePerWaypoint numWaypoints
          iters target (idx + 1) (rem - segmentLengthNm) acc
      else
        match getBisectedPoint g cur target rem with
        | .error e => .error e
        | .ok p =>
          if numWaypoints ≤ (p :: acc).length then .ok (p :: acc).reverse
          else betterWalkLoop g coords degToNm distancePerWaypoint numWaypoints
            iters p idx distancePerWaypoint (p :: acc)

/-- Embeds `BetterRouteFinder.get_waypoints` (`better_route_finder.py` lines
587-649) with the degree-to-nautical-mile segment factor as a parameter:
`distance_per_waypoint = speed_knot * time_hrs / num_waypoints` (line 602,
raising `ZeroDivisionError` for a zero count), then the cumulative walk. -/
def betterGetWaypointsWith (degToNm : ℚ) (g : Geo) (coords : List Pt)
    (speedKnot timeHrs : ℚ) (numWaypoints : ℕ) : Except PyErr (List Pt) :=
  if numWaypoints = 0 then .error .zeroDivisionError
  else
    let distanceNmTotal := speedKnot * timeHrs
    let distancePerWaypoint := distanceNmTotal / (numWaypoints : ℚ)
    match coords with
    | [] => .error .indexError
    | c0 :: _ =>
      betterWalkLoop g coords degToNm distancePerWaypoint numWaypoints
        (coords.length - 1) c0 1 distancePerWaypoint []

/-- `BetterRouteFinder.get_waypoints` as written: segment lengths are
converted with the constant 53.4 = 267/5 (`better_route_finder.py` line
617), while its bisection helper uses 60. -/
def betterGetWaypoints : Geo → List Pt → ℚ → ℚ → ℕ → Except PyErr (List Pt) :=
  betterGetWaypointsWith (267 / 5)

/-- Follows the spec's words, for comparison with the code (claim C3): the
same walk with the uniform 1° = 60 nm conversion the spec prescribes for
every degree-to-nautical-mile conversion. -/
def betterGetWaypointsUniform60 : Geo → List Pt → ℚ → ℚ → ℕ → Except PyErr (List Pt) :=
  betterGetWaypointsWith 60

/-- Outcome of the `while` loop of `WaypointCalculator.get_waypoints`: a
normal return, a raised exception, or `fuelOut`, marking that the given
number of loop iterations did not suffice (the Python loop has no bound; a
result that is `fuelOut` for every fuel models divergence). -/
inductive WalkOut where
  | ok (waypoints : List Pt)
  | err (e : PyErr)
  | fuelOut
deriving DecidableEq, Repr

/-- The `while current_coord != coords[-1]` loop of
`WaypointCalculator.get_waypoints` (`maritime/waypoint_calculator.py` lines
45-67), as a fuel recursion.  `lastC` is `coords[-1]`; `tot` is the
write-only `distance_nm_total` accumulator (kept for fidelity; it never
influences control flow or output); segment lengths are converted with 60
(line 51). -/
def waypointCalcLoop (g : Geo) (coords : List Pt) (lastC : Pt) (distancePerWaypoint : ℚ) :
    ℕ → Pt → ℕ → ℚ → ℚ → List Pt → WalkOut
  | 0, _, _, _, _, _ => .fuelOut
  | fuel + 1, cur, idx, rem, tot, acc =>
    if cur = lastC then .ok acc.reverse
    else if coords.length ≤ idx then .ok acc.reverse
    else
      let target := coords.getD idx (0, 0)
      let segmentLengthNm := g.dist cur target * 60
      if segmentLengthNm < rem then
        waypointCalcLoop g coords lastC distancePerWaypoint fuel
          target (idx + 1) (rem - segmentLengthNm) (tot - segmentLengthNm) acc
      else
        match getBisectedPoint g cur target rem with
        | .error e => .err e
        | .ok p =>
          waypointCalcLoop g coords lastC distancePerWaypoint fuel
            p idx distancePerWaypoint (tot - rem) (p :: acc)

/-- Embeds `WaypointCalculator.get_waypoints` (`maritime/waypoint_calculator.py`
lines 17-69): `distance_nm_total = speed * time * count`,
`distance_per_waypoint = speed * time` (no division by the count), then the
unbounded walk; `fuel` bounds the number of loop iterations examined. -/
def waypointCalcGetWaypoints (g : Geo) (fuel : ℕ) (coords : List Pt)
    (speedKnot timeHrs : ℚ) (numWaypoints : ℕ) : WalkOut :=
  let distanceNmTotal := speedKnot * timeHrs * (numWaypoints : ℚ)
  let distancePerWaypoint := speedKnot * timeHrs
  match coords with
  | [] => .err .indexError
  | c0 :: _ =>
    waypointCalcLoop g coords (coords.getLastD (0, 0)) distancePerWaypoint fuel
      c0 1 distancePerWaypoint distanceNmTotal []

instance {ε α : Type} [DecidableEq ε] [DecidableEq α] : DecidableEq (Except ε α) := fun a b =>
  match a, b with
  | .error e, .error f =>
    if h : e = f then .isTrue (by rw [h]) else .isFalse (by intro hc; cases hc; exact h rfl)
  | .error _, .ok _ => .isFalse (by intro h; cases h)
  | .ok _, .error _ => .isFalse (by intro h; cases h)
  | .ok x, .ok y =>
    if h : x = y then .isTrue (by rw [h]) else .isFalse (by intro hc; cases hc; exact h rfl)

/-- A concrete executable `Geo` instance for witnesses and counterexamples.
Its `dist` is the taxicab metric, which agrees exactly with shapely's planar
Euclidean metric on the horizontal (equal-latitude) chords all concrete
inputs below use; the remaining fields are simple total functions (their
values never matter for the statements that use this instance, except where
a theorem fixes them explicitly). -/
def gQ : Geo where
  dist p q := |q.1 - p.1| + |q.2 - p.2|
  bearing _ _ := 0
  projOnto _ _ := 0
  interpAt r _ := r.headD (0, 0)
  geoDest _ p _ := p

/-- C10: for every route, positive speed and positive time, calling
`BetterRouteFinder.get_waypoints` with a requested waypoint count of zero
raises a division error (the per-waypoint spacing is total distance divided
by the requested count, unguarded), rather than returning an empty list. -/
theorem betterGetWaypoints_zero_count_divzero (g : Geo) (coords : List Pt)
    (speed time : ℚ) (_hs : 0 < speed) (_ht : 0 < time) :
    betterGetWaypoints g coords speed time 0 = .error .zeroDivisionError := by
  rfl

/-- Witness for C10 at a concrete route, speed 10 kn and 2 h. -/
theorem betterGetWaypoints_zero_count_divzero_witness :
    (0 : ℚ) < 10 ∧ (0 : ℚ) < 2 ∧
      betterGetWaypoints gQ [(0, 0), (1, 1)] 10 2 0 = .error .zeroDivisionError :=
  ⟨by norm_num, by norm_num,
    betterGetWaypoints_zero_count_divzero gQ [(0, 0), (1, 1)] 10 2
      (by norm_num) (by norm_num)⟩

/-- The taxicab `gQ.dist` on a horizontal chord is the exact shapely planar
Euclidean length of that chord. -/
theorem gQ_dist_horiz (a b : ℚ) : gQ.dist (a, 0) (b, 0) = |b - a| := by
  simp [gQ]

/-- Nat floor of a rational drops by one when one is subtracted, provided the
value was at least one. -/
theorem nat_floor_sub_one (q : ℚ) (hq : 1 ≤ q) : ⌊q - 1⌋₊ = ⌊q⌋₊ - 1 := by
  have h0 : (0 : ℚ) ≤ q := by linarith
  have h1 : 1 ≤ ⌊q⌋₊ := Nat.le_floor (by exact_mod_cast hq)
  rw [Nat.floor_eq_iff (by linarith)]
  constructor
  · have := Nat.floor_le h0
    have hcast : ((⌊q⌋₊ - 1 : ℕ) : ℚ) = (⌊q⌋₊ : ℚ) - 1 := by
      push_cast [Nat.cast_sub h1]
      ring
    rw [hcast]
    linarith
  · have := Nat.lt_floor_add_one q
    have hcast : ((⌊q⌋₊ - 1 : ℕ) : ℚ) = (⌊q⌋₊ : ℚ) - 1 := by
      push_cast [Nat.cast_sub h1]
      ring
    rw [hcast]
    linarith

/-- The bisection helper on a horizontal chord moves the point exactly d/60
degrees east, independently of the chord length — the 1° = 60 nm constant in
action. -/
theorem getBisectedPoint_horiz (a b d : ℚ) (hab : a < b) (hd0 : 0 ≤ d)
    (hdle : d ≤ 60 * (b - a)) :
    getBisectedPoint gQ (a, 0) (b, 0) d = .ok (a + d / 60, 0) := by
  have hdist : gQ.dist (a, 0) (b, 0) = b - a := by
    rw [gQ_dist_horiz, abs_of_nonneg (by linarith)]
  have hden : (0 : ℚ) < (b - a) * 60 := by nlinarith
  rw [getBisectedPoint]
  simp only [hdist]
  rw [if_neg (ne_of_gt hden), interpolateNormalized]
  by_cases hzero : d / ((b - a) * 60) ≤ 0
  · rw [if_pos hzero]
    have hd0' : d = 0 := by
      rcases lt_or_eq_of_le hd0 with h | h
      · exact absurd (div_pos h hden) (by linarith)
      · exact h.symm
    subst hd0'
    norm_num
  · rw [if_neg hzero]
    by_cases hone : 1 ≤ d / ((b - a) * 60)
    · rw [if_pos hone]
      have h1 : (b - a) * 60 ≤ d := by
        rw [le_div_iff₀ hden, one_mul] at hone
        exact hone
      have hb : b = a + d / 60 := by linarith
      rw [hb]
    · rw [if_neg hone]
      have hba : b - a ≠ 0 := by linarith
      refine congrArg Except.ok ?_
      simp only [Prod.mk.injEq]
      constructor
      · field_simp
        ring
      · ring

/-- The last element of a nonempty list does not depend on the default. -/
theorem getLastD_ne_nil (l : List ℚ) (hne : l ≠ []) (a b : ℚ) :
    l.getLastD a = l.getLastD b := by
  cases l with
  | nil => exact absurd rfl hne
  | cons x t => rw [List.getLastD_cons, List.getLastD_cons]

/-- A value below a ≤-chain is at most the chain's last element. -/
theorem chain_le_getLastD : ∀ (ys : List ℚ) (a : ℚ),
    List.Chain (· ≤ ·) a ys → a ≤ ys.getLastD a
  | [], a, _ => le_refl a
  | y :: t, a, h => by
    rw [List.chain_cons] at h
    rw [List.getLastD_cons]
    exact le_trans h.1 (chain_le_getLastD t y h.2)

/-- Mapping longitudes onto horizontal points commutes with `getLastD`. -/
theorem map_pair_getLastD : ∀ (l : List ℚ) (a : ℚ),
    (l.map fun x => ((x, 0) : Pt)).getLastD (a, 0) = (l.getLastD a, 0)
  | [], _ => rfl
  | x :: t, _ => by
    rw [List.map_cons, List.getLastD_cons, List.getLastD_cons]
    exact map_pair_getLastD t x

/-- The number of waypoints `WaypointCalculator.get_waypoints` still emits
from longitude `c` with `rem` nautical miles to go until the next waypoint,
on a straight path ending at longitude `L` with spacing `S`: one at
`c + rem/60` if the remaining path reaches it, then one every further `S`
nautical miles. -/
def wcount (S L c rem : ℚ) : ℕ :=
  if rem ≤ 60 * (L - c) then ⌊(60 * (L - c) - rem) / S⌋₊ + 1 else 0

/-- With a full spacing still to go, the pending-waypoint count collapses to
`⌊60(L-c)/S⌋`. -/
theorem wcount_full (S L c : ℚ) (hS : 0 < S) :
    wcount S L c S = ⌊60 * (L - c) / S⌋₊ := by
  rw [wcount]
  by_cases h : S ≤ 60 * (L - c)
  · rw [if_pos h]
    have hq1 : (1 : ℚ) ≤ 60 * (L - c) / S := by
      rw [le_div_iff₀ hS]
      linarith
    have harith : (60 * (L - c) - S) / S = 60 * (L - c) / S - 1 := by
      rw [sub_div, div_self (ne_of_gt hS)]
    rw [harith, nat_floor_sub_one _ hq1]
    have h1 : 1 ≤ ⌊60 * (L - c) / S⌋₊ := Nat.le_floor (by exact_mod_cast hq1)
    omega
  · rw [if_neg h]
    have hlt : 60 * (L - c) / S < 1 := by
      rw [div_lt_one hS]
      linarith
    exact (Nat.floor_eq_zero.mpr hlt).symm

/-- Behaviour of the `WaypointCalculator.get_waypoints` loop on a straight
horizontal polyline: from position `(c,0)` with `rem` nautical miles left to
the next waypoint, the remaining vertices at longitudes `ys` (a ≤-chain
above `c`) and the path ending at longitude `L`, the loop emits
`wcount S L c rem` further waypoints, the k-th at longitude
`c + (rem + k·S)/60` — the remaining distance is carried across segment
boundaries exactly as the code's `remaining_distance -= segment_length_nm`
does.  `tot` is the write-only total-distance accumulator. -/
theorem waypointCalcLoop_straight (S L : ℚ) (hS : 0 < S) (coords : List Pt) :
    ∀ (fuel : ℕ) (ys : List ℚ) (idx : ℕ) (c rem tot : ℚ) (acc : List Pt),
      0 < rem →
      coords.drop idx = ys.map (fun x => ((x, 0) : Pt)) →
      List.Chain (· ≤ ·) c ys →
      (ys = [] → c = L) →
      (ys ≠ [] → ys.getLastD 0 = L) →
      ys.length + wcount S L c rem + 1 ≤ fuel →
      waypointCalcLoop gQ coords (L, 0) S fuel (c, 0) idx rem tot acc =
        .ok (acc.reverse ++ (List.range (wcount S L c rem)).map
          fun k : ℕ => (c + (rem + (k : ℚ) * S) / 60, 0)) := by
  intro fuel
  induction fuel with
  | zero =>
    intro ys idx c rem tot acc _ _ _ _ _ hfuel
    omega
  | succ f ih =>
    intro ys idx c rem tot acc hrem hdrop hchain hnil hlast hfuel
    rw [waypointCalcLoop]
    by_cases hcL : c = L
    · rw [if_pos (show ((c, (0 : ℚ)) : Pt) = (L, 0) by rw [hcL])]
      have hw0 : wcount S L c rem = 0 := by
        rw [wcount, if_neg]
        push_neg
        have hz : 60 * (L - c) = 0 := by
          rw [hcL]
          ring
        linarith
      rw [hw0]
      simp
    · have hneq : ((c, (0 : ℚ)) : Pt) ≠ (L, 0) := fun h => hcL (congrArg Prod.fst h)
      rw [if_neg hneq]
      cases ys with
      | nil => exact absurd (hnil rfl) hcL
      | cons y ys' =>
        rw [List.chain_cons] at hchain
        obtain ⟨hcy, hchain'⟩ := hchain
        have hlastc : ys'.getLastD y = L := by
          have hfull := hlast (by simp)
          rwa [List.getLastD_cons] at hfull
        have hyL : y ≤ L := by
          rw [← hlastc]
          exact chain_le_getLastD ys' y hchain'
        have hdropne : coords.drop idx ≠ [] := by
          rw [hdrop]
          simp
        have hlen : ¬ coords.length ≤ idx := fun h =>
          hdropne (List.drop_eq_nil_iff.mpr h)
        rw [if_neg hlen]
        have hget : coords[idx]? = some ((y, 0) : Pt) := by
          rw [← List.head?_drop, hdrop]
          rfl
        have htarget : coords.getD idx (0, 0) = (y, 0) := by
          rw [List.getD_eq_getElem?_getD, hget]
          rfl
        have hdist : gQ.dist (c, 0) (y, 0) = y - c := by
          rw [gQ_dist_horiz, abs_of_nonneg (by linarith)]
        simp only [htarget, hdist]
        by_cases hcons : (y - c) * 60 < rem
        · rw [if_pos hcons]
          have hrem' : 0 < rem - (y - c) * 60 := by linarith
          have hdrop' : coords.drop (idx + 1) = ys'.map (fun x => ((x, 0) : Pt)) := by
            rw [← List.tail_drop, hdrop]
            rfl
          have hnil' : ys' = [] → y = L := by
            intro h
            subst h
            simpa using hlastc
          have hlast' : ys' ≠ [] → ys'.getLastD 0 = L := by
            intro h
            rw [getLastD_ne_nil ys' h 0 y]
            exact hlastc
          have hw : wcount S L y (rem - (y - c) * 60) = wcount S L c rem := by
            rw [wcount, wcount]
            have hiff : (rem - (y - c) * 60 ≤ 60 * (L - y)) ↔ (rem ≤ 60 * (L - c)) := by
              constructor <;> intro <;> linarith
            by_cases hc2 : rem ≤ 60 * (L - c)
            · rw [if_pos (hiff.mpr hc2), if_pos hc2]
              have harg : 60 * (L - y) - (rem - (y - c) * 60) = 60 * (L - c) - rem := by
                ring
              rw [harg]
            · rw [if_neg (fun h => hc2 (hiff.mp h)), if_neg hc2]
          have hrec := ih ys' (idx + 1) y (rem - (y - c) * 60) (tot - (y - c) * 60) acc
            hrem' hdrop' hchain' hnil' hlast' (by
              rw [hw]
              simp only [List.length_cons] at hfuel
              omega)
          rw [hrec, hw]
          refine congrArg WalkOut.ok ?_
          have hfun : (fun k : ℕ =>
              ((y + (rem - (y - c) * 60 + (k : ℚ) * S) / 60, (0 : ℚ)) : Pt)) =
              fun k : ℕ => ((c + (rem + (k : ℚ) * S) / 60, (0 : ℚ)) : Pt) := by
            funext k
            rw [Prod.mk.injEq]
            refine ⟨?_, rfl⟩
            ring
          rw [hfun]
        · rw [if_neg hcons]
          have hremle : rem ≤ (y - c) * 60 := le_of_not_lt hcons
          have hcy2 : c < y := by nlinarith
          have hbis : getBisectedPoint gQ (c, 0) (y, 0) rem = .ok (c + rem / 60, 0) :=
            getBisectedPoint_horiz c y rem hcy2 (le_of_lt hrem) (by linarith)
          rw [hbis]
          dsimp only
          have hc'y : c + rem / 60 ≤ y := by
            rw [← sub_nonneg]
            have heq : y - (c + rem / 60) = ((y - c) * 60 - rem) / 60 := by ring
            rw [heq]
            apply div_nonneg (by linarith) (by norm_num)
          have hchain2 : List.Chain (· ≤ ·) (c + rem / 60) (y :: ys') :=
            List.chain_cons.mpr ⟨hc'y, hchain'⟩
          have hremD : rem ≤ 60 * (L - c) := by linarith
          have hm1 : wcount S L c rem = ⌊(60 * (L - c) - rem) / S⌋₊ + 1 := by
            rw [wcount, if_pos hremD]
          have hw' : wcount S L (c + rem / 60) S = wcount S L c rem - 1 := by
            rw [wcount]
            have hD' : 60 * (L - (c + rem / 60)) = 60 * (L - c) - rem := by ring
            by_cases h2 : S ≤ 60 * (L - (c + rem / 60))
            · rw [if_pos h2]
              rw [hD'] at h2 ⊢
              have hq1 : (1 : ℚ) ≤ (60 * (L - c) - rem) / S := by
                rw [le_div_iff₀ hS]
                linarith
              have harith : (60 * (L - c) - rem - S) / S = (60 * (L - c) - rem) / S - 1 := by
                rw [sub_div, div_self (ne_of_gt hS)]
              rw [harith, nat_floor_sub_one _ hq1, hm1]
              have h1 : 1 ≤ ⌊(60 * (L - c) - rem) / S⌋₊ := Nat.le_floor (by exact_mod_cast hq1)
              omega
            · rw [if_neg h2]
              rw [hD'] at h2
              push_neg at h2
              have hfl0 : ⌊(60 * (L - c) - rem) / S⌋₊ = 0 := by
                rw [Nat.floor_eq_zero, div_lt_one hS]
                linarith
              rw [hm1, hfl0]
          have hrec := ih (y :: ys') idx (c + rem / 60) S (tot - rem)
            ((c + rem / 60, 0) :: acc) hS hdrop hchain2
            (fun h => absurd h (List.cons_ne_nil y ys')) hlast (by
              rw [hw', hm1]
              simp only [List.length_cons] at hfuel ⊢
              rw [hm1] at hfuel
              omega)
          rw [hrec]
          refine congrArg WalkOut.ok ?_
          rw [hw', hm1]
          simp only [Nat.add_sub_cancel]
          have hfun : (fun k : ℕ =>
              ((c + rem / 60 + (S + (k : ℚ) * S) / 60, (0 : ℚ)) : Pt)) =
              ((fun k : ℕ => ((c + (rem + (k : ℚ) * S) / 60, (0 : ℚ)) : Pt)) ∘ Nat.succ) := by
            funext k
            simp only [Function.comp_apply, Nat.succ_eq_add_one]
            rw [Prod.mk.injEq]
            refine ⟨?_, rfl⟩
            push_cast
            ring
          rw [List.reverse_cons, List.append_assoc, List.singleton_append,
            List.range_succ_eq_map, List.map_cons, List.map_map, hfun]
          congr 1
          norm_num

/-- `WaypointCalculator.get_waypoints` on an arbitrary straight horizontal
polyline with vertices at longitudes `x0 :: rest` (a ≤-chain) and spacing
`S = speed * time`: it returns exactly `⌊60·(L - x0)/S⌋` waypoints,
`L` the final longitude, the k-th waypoint at longitude `x0 + (k+1)·S/60`,
regardless of the requested count and of how the straight path is
subdivided into segments. -/
theorem waypointCalcGetWaypoints_straight (x0 : ℚ) (rest : List ℚ) (speed time : ℚ)
    (cnt fuel : ℕ) (hS : 0 < speed * time)
    (hchain : List.Chain (· ≤ ·) x0 rest)
    (hfuel : rest.length + ⌊60 * (rest.getLastD x0 - x0) / (speed * time)⌋₊ + 1 ≤ fuel) :
    waypointCalcGetWaypoints gQ fuel ((x0 :: rest).map fun x => ((x, 0) : Pt))
        speed time cnt =
      .ok ((List.range ⌊60 * (rest.getLastD x0 - x0) / (speed * time)⌋₊).map
        fun k : ℕ => (x0 + ((k : ℚ) + 1) * (speed * time) / 60, 0)) := by
  unfold waypointCalcGetWaypoints
  rw [show ((x0 :: rest).map fun x => ((x, 0) : Pt)) =
    ((x0, 0) : Pt) :: (rest.map fun x => ((x, 0) : Pt)) from rfl]
  dsimp only
  have hlastmap : (((x0, 0) : Pt) :: rest.map fun x => ((x, 0) : Pt)).getLastD (0, 0) =
      (rest.getLastD x0, 0) := by
    rw [List.getLastD_cons]
    exact map_pair_getLastD rest x0
  rw [hlastmap]
  have hloop := waypointCalcLoop_straight (speed * time) (rest.getLastD x0) hS
    (((x0, 0) : Pt) :: rest.map fun x => ((x, 0) : Pt)) fuel rest 1 x0 (speed * time)
    (speed * time * (cnt : ℚ)) [] hS rfl hchain
    (fun h => by rw [h]; rfl)
    (fun h => getLastD_ne_nil rest h 0 x0)
    (by rw [wcount_full _ _ _ hS]; exact hfuel)
  rw [hloop, wcount_full _ _ _ hS]
  refine congrArg WalkOut.ok ?_
  simp only [List.reverse_nil, List.nil_append]
  have hfun : (fun k : ℕ =>
      ((x0 + (speed * time + (k : ℚ) * (speed * time)) / 60, (0 : ℚ)) : Pt)) =
      fun k : ℕ => ((x0 + ((k : ℚ) + 1) * (speed * time) / 60, (0 : ℚ)) : Pt) := by
    funext k
    rw [Prod.mk.injEq]
    refine ⟨?_, rfl⟩
    ring
  rw [hfun]

/-- `WaypointCalculator.get_waypoints` on the straight horizontal path from
(0,0) to (X,0) with spacing `S = speed * time`: it returns exactly
`⌊60X/S⌋` waypoints, the k-th at longitude `(k+1)·S/60`, regardless of the
requested count. -/
theorem waypointCalcGetWaypoints_horiz (X speed time : ℚ) (cnt fuel : ℕ)
    (hX : 0 ≤ X) (hS : 0 < speed * time)
    (hfuel : ⌊60 * X / (speed * time)⌋₊ + 2 ≤ fuel) :
    waypointCalcGetWaypoints gQ fuel [(0, 0), (X, 0)] speed time cnt =
      .ok ((List.range ⌊60 * X / (speed * time)⌋₊).map
        fun k : ℕ => (((k : ℚ) + 1) * (speed * time) / 60, 0)) := by
  have h := waypointCalcGetWaypoints_straight 0 [X] speed time cnt fuel hS
    (List.chain_cons.mpr ⟨hX, List.Chain.nil⟩)
    (by
      rw [show (([X] : List ℚ).getLastD 0) = X from rfl, sub_zero]
      simp only [List.length_cons, List.length_nil]
      omega)
  rw [show (([X] : List ℚ).getLastD 0) = X from rfl, sub_zero] at h
  simp only [List.map_cons, List.map_nil, zero_add] at h
  exact h

/-- C1 (amended): on every straight polyline (vertices at a ≤-chain of
longitudes `x0 :: rest` on one latitude, however it is subdivided into
segments), `WaypointCalculator.get_waypoints` places consecutive waypoints
exactly `speed_knots * duration_hours` nautical miles apart (under the
code's 1° = 60 nm conversion), carrying the remaining distance across
segment boundaries, with a spacing that does not depend on the requested
count; `BetterRouteFinder.get_waypoints` instead derives its spacing by
dividing `speed * time` by the requested count (see the counterexample). -/
theorem c1_waypointCalc_spacing_amended (x0 : ℚ) (rest : List ℚ) (speed time : ℚ)
    (cnt fuel : ℕ) (hS : 0 < speed * time)
    (hchain : List.Chain (· ≤ ·) x0 rest)
    (hfuel : rest.length + ⌊60 * (rest.getLastD x0 - x0) / (speed * time)⌋₊ + 1 ≤ fuel) :
    waypointCalcGetWaypoints gQ fuel ((x0 :: rest).map fun x => ((x, 0) : Pt))
        speed time cnt =
      .ok ((List.range ⌊60 * (rest.getLastD x0 - x0) / (speed * time)⌋₊).map
        fun k : ℕ => (x0 + ((k : ℚ) + 1) * (speed * time) / 60, 0)) ∧
    ∀ (i : ℕ) (p q : Pt),
      ((List.range ⌊60 * (rest.getLastD x0 - x0) / (speed * time)⌋₊).map
        fun k : ℕ => ((x0 + ((k : ℚ) + 1) * (speed * time) / 60, 0) : Pt)).get? i = some p →
      ((List.range ⌊60 * (rest.getLastD x0 - x0) / (speed * time)⌋₊).map
        fun k : ℕ =>
          ((x0 + ((k : ℚ) + 1) * (speed * time) / 60, 0) : Pt)).get? (i + 1) = some q →
      60 * (q.1 - p.1) = speed * time := by
  refine ⟨waypointCalcGetWaypoints_straight x0 rest speed time cnt fuel hS hchain hfuel, ?_⟩
  intro i p q hp hq
  rw [List.get?_map, Option.map_eq_some'] at hp hq
  obtain ⟨a, ha, hpa⟩ := hp
  obtain ⟨b, hb, hqb⟩ := hq
  have hilt : i < ⌊60 * (rest.getLastD x0 - x0) / (speed * time)⌋₊ := by
    have := List.get?_eq_some.mp ha
    simpa [List.length_range] using this.1
  have hjlt : i + 1 < ⌊60 * (rest.getLastD x0 - x0) / (speed * time)⌋₊ := by
    have := List.get?_eq_some.mp hb
    simpa [List.length_range] using this.1
  rw [List.get?_range hilt] at ha
  rw [List.get?_range hjlt] at hb
  have ha3 : i = a := Option.some.inj ha
  have hb3 : i + 1 = b := Option.some.inj hb
  subst ha3
  subst hb3
  rw [← hpa, ← hqb]
  push_cast
  ring

/-- Witness for the amended C1 on the two-segment straight path through
longitudes 0, 1/20, 1 at speed 2 kn for 3 h, count 5, fuel 14: the walk
emits ten waypoints, consecutive ones 6 nm apart, carrying 3 of the first
6 nm across the segment boundary at longitude 1/20. -/
theorem c1_waypointCalc_spacing_amended_witness :
    waypointCalcGetWaypoints gQ 14 ((0 :: [1 / 20, 1]).map fun x => ((x, 0) : Pt)) 2 3 5 =
      .ok ((List.range ⌊60 * (([1 / 20, 1] : List ℚ).getLastD 0 - 0) / ((2 : ℚ) * 3)⌋₊).map
        fun k : ℕ => ((0 : ℚ) + ((k : ℚ) + 1) * (2 * 3) / 60, 0)) ∧
    ∀ (i : ℕ) (p q : Pt),
      ((List.range ⌊60 * (([1 / 20, 1] : List ℚ).getLastD 0 - 0) / ((2 : ℚ) * 3)⌋₊).map
        fun k : ℕ => (((0 : ℚ) + ((k : ℚ) + 1) * (2 * 3) / 60, 0) : Pt)).get? i = some p →
      ((List.range ⌊60 * (([1 / 20, 1] : List ℚ).getLastD 0 - 0) / ((2 : ℚ) * 3)⌋₊).map
        fun k : ℕ =>
          (((0 : ℚ) + ((k : ℚ) + 1) * (2 * 3) / 60, 0) : Pt)).get? (i + 1) = some q →
      60 * (q.1 - p.1) = 2 * 3 :=
  c1_waypointCalc_spacing_amended 0 [1 / 20, 1] 2 3 5 14 (by norm_num)
    (List.chain_cons.mpr ⟨by norm_num, List.chain_cons.mpr ⟨by norm_num, List.Chain.nil⟩⟩)
    (by
      rw [show (([1 / 20, 1] : List ℚ).getLastD 0) = 1 from rfl]
      norm_num)

/-- C1 counterexample: on the single-segment route from (0,0) to (10,0) with
speed 2 kn, duration 3 h and 2 requested waypoints,
`BetterRouteFinder.get_waypoints` places its first waypoint at longitude
1/20, i.e. 3 nautical miles from the start under the code's own 1° = 60 nm
bisection conversion — not `speed_knots * duration_hours` = 6 nm.  The
walk's spacing is `speed * time / count`, refuting the claim that it is not
derived by dividing by the requested count. -/
theorem c1_spacing_counterexample :
    betterGetWaypoints gQ [(0, 0), (10, 0)] 2 3 2 = .ok [(1 / 20, 0)] ∧
      (60 : ℚ) * (1 / 20) ≠ 2 * 3 := by
  constructor
  · norm_num [betterGetWaypoints, betterGetWaypointsWith, betterWalkLoop,
      getBisectedPoint, interpolateNormalized, gQ]
  · norm_num

/-- The `BetterRouteFinder.get_waypoints` loop never accumulates more than the
requested number of waypoints once the accumulator is below the cap: the
`len(waypoints) >= num_waypoints` break keeps the list within bounds. -/
theorem betterWalkLoop_length_le (g : Geo) (coords : List Pt) (degToNm dpw : ℚ)
    (numW : ℕ) :
    ∀ (iters : ℕ) (cur : Pt) (idx : ℕ) (rem : ℚ) (acc l : List Pt),
      acc.length < numW →
      betterWalkLoop g coords degToNm dpw numW iters cur idx rem acc = .ok l →
      l.length ≤ numW := by
  intro iters
  induction iters with
  | zero =>
    intro cur idx rem acc l hacc h
    rw [betterWalkLoop] at h
    obtain rfl : acc.reverse = l := by injection h
    simp only [List.length_reverse]
    omega
  | succ n ih =>
    intro cur idx rem acc l hacc h
    rw [betterWalkLoop] at h
    cases hget : coords.get? idx with
    | none =>
      rw [hget] at h
      cases h
    | some target =>
      rw [hget] at h
      dsimp only at h
      by_cases hseg : g.dist cur target * degToNm < rem
      · rw [if_pos hseg] at h
        by_cases hbreak : numW ≤ acc.length
        · rw [if_pos hbreak] at h
          obtain rfl : acc.reverse = l := by injection h
          simp only [List.length_reverse]
          omega
        · rw [if_neg hbreak] at h
          exact ih target (idx + 1) (rem - g.dist cur target * degToNm) acc l hacc h
      · rw [if_neg hseg] at h
        cases hbis : getBisectedPoint g cur target rem with
        | error e =>
          rw [hbis] at h
          cases h
        | ok p =>
          rw [hbis] at h
          dsimp only at h
          by_cases hbreak : numW ≤ (p :: acc).length
          · rw [if_pos hbreak] at h
            obtain rfl : (p :: acc).reverse = l := by injection h
            simp only [List.length_reverse, List.length_cons]
            omega
          · rw [if_neg hbreak] at h
            refine ih p idx dpw (p :: acc) l ?_ h
            simp only [List.length_cons] at hbreak ⊢
            omega

/-- C2 counterexample: on the straight two-segment path through (0,0),
(1/20,0) and (1,0) (60 nm under the 1° = 60 nm conversion), speed 6 kn and
1 h (spacing 6 nm), `WaypointCalculator.get_waypoints` asked for 2
waypoints returns 10 of them: the spaced-waypoint walk of
`maritime/waypoint_calculator.py` has no count cap, refuting "never returns
more waypoints than requested". -/
theorem c2_count_cap_counterexample :
    waypointCalcGetWaypoints gQ 14 [(0, 0), (1 / 20, 0), (1, 0)] 6 1 2 =
      .ok ((List.range 10).map fun k : ℕ => (((k : ℚ) + 1) * (6 * 1) / 60, 0)) ∧
    2 < ((List.range 10).map fun k : ℕ =>
      ((((k : ℚ) + 1) * (6 * 1) / 60, 0) : Pt)).length := by
  constructor
  · have h := waypointCalcGetWaypoints_straight 0 [1 / 20, 1] 6 1 2 14 (by norm_num)
      (List.chain_cons.mpr ⟨by norm_num, List.chain_cons.mpr ⟨by norm_num, List.Chain.nil⟩⟩)
      (by
        rw [show (([1 / 20, 1] : List ℚ).getLastD 0) = 1 from rfl]
        norm_num)
    rw [show (([1 / 20, 1] : List ℚ).getLastD 0) = 1 from rfl, sub_zero] at h
    have hfl : ⌊60 * 1 / ((6 : ℚ) * 1)⌋₊ = 10 := by norm_num
    rw [hfl] at h
    simp only [List.map_cons, List.map_nil, zero_add] at h
    exact h
  · simp

/-- C2 (amended): on a straight polyline (however subdivided) from longitude
x0 to final longitude L, of length 60·(L - x0) nautical miles, with spacing
S, `WaypointCalculator.get_waypoints` returns exactly ⌊60·(L - x0)/S⌋
waypoints with no cap at the requested count, while
`BetterRouteFinder.get_waypoints` returns at most the requested count
(for a positive requested count); running out of path is a valid non-error
outcome in both. -/
theorem c2_walk_counts_amended (x0 : ℚ) (rest : List ℚ) (speed time : ℚ) (cnt fuel : ℕ)
    (g : Geo) (coords : List Pt) (speed2 time2 : ℚ) (cnt2 : ℕ) (l2 : List Pt)
    (hS : 0 < speed * time) (hchain : List.Chain (· ≤ ·) x0 rest)
    (hfuel : rest.length + ⌊60 * (rest.getLastD x0 - x0) / (speed * time)⌋₊ + 1 ≤ fuel)
    (hcnt2 : 1 ≤ cnt2)
    (hok : betterGetWaypoints g coords speed2 time2 cnt2 = .ok l2) :
    (∃ l, waypointCalcGetWaypoints gQ fuel ((x0 :: rest).map fun x => ((x, 0) : Pt))
        speed time cnt = .ok l ∧
      l.length = ⌊60 * (rest.getLastD x0 - x0) / (speed * time)⌋₊) ∧
    l2.length ≤ cnt2 := by
  constructor
  · refine ⟨_,
      waypointCalcGetWaypoints_straight x0 rest speed time cnt fuel hS hchain hfuel, ?_⟩
    simp
  · rw [betterGetWaypoints, betterGetWaypointsWith] at hok
    rw [if_neg (by omega)] at hok
    cases coords with
    | nil => cases hok
    | cons c0 tail =>
      dsimp only at hok
      exact betterWalkLoop_length_le g (c0 :: tail) (267 / 5)
        (speed2 * time2 / ((cnt2 : ℕ) : ℚ)) cnt2 ((c0 :: tail).length - 1) c0 1
        (speed2 * time2 / ((cnt2 : ℕ) : ℚ)) [] l2 (by simpa using hcnt2) hok

/-- Witness for the amended C2 on the two-segment straight path through
longitudes 0, 1/20, 1: the maritime walk emits ⌊60/6⌋ = 10 waypoints though
7 were requested, and the better walk on a single-segment path with 2
requested waypoints returns at most 2. -/
theorem c2_walk_counts_amended_witness :
    ((∃ l, waypointCalcGetWaypoints gQ 14 ((0 :: [1 / 20, 1]).map fun x => ((x, 0) : Pt))
        6 1 7 = .ok l ∧
      l.length = ⌊60 * (([1 / 20, 1] : List ℚ).getLastD 0 - 0) / ((6 : ℚ) * 1)⌋₊) ∧
    ([((1 : ℚ) / 20, (0 : ℚ))] : List Pt).length ≤ 2) :=
  c2_walk_counts_amended 0 [1 / 20, 1] 6 1 7 14 gQ [(0, 0), (10, 0)] 2 3 2 [(1 / 20, 0)]
    (by norm_num)
    (List.chain_cons.mpr ⟨by norm_num, List.chain_cons.mpr ⟨by norm_num, List.Chain.nil⟩⟩)
    (by
      rw [show (([1 / 20, 1] : List ℚ).getLastD 0) = 1 from rfl]
      norm_num)
    (by norm_num)
    (by norm_num [betterGetWaypoints, betterGetWaypointsWith, betterWalkLoop,
      getBisectedPoint, interpolateNormalized, gQ])

/-- C3 counterexample: a single-segment route of one degree (60 nm at the
uniform conversion) with spacing 54 nm.  `BetterRouteFinder.get_waypoints`
as written (53.4 nm per degree at line 617) finds the segment too short and
emits nothing, while the same walk with the spec's uniform 60 constant
emits a waypoint at longitude 9/10.  Not every degree-to-nautical-mile
conversion in the core uses the constant 60. -/
theorem c3_conversion_counterexample :
    betterGetWaypoints gQ [(0, 0), (1, 0)] 54 1 1 = .ok [] ∧
    betterGetWaypointsUniform60 gQ [(0, 0), (1, 0)] 54 1 1 = .ok [(9 / 10, 0)] := by
  constructor
  · norm_num [betterGetWaypoints, betterGetWaypointsWith, betterWalkLoop,
      getBisectedPoint, interpolateNormalized, gQ]
  · norm_num [betterGetWaypointsUniform60, betterGetWaypointsWith, betterWalkLoop,
      getBisectedPoint, interpolateNormalized, gQ]

/-- C3 (amended): the 1° = 60 nm conversion is used uniformly in the
bisection helper (a requested distance of d nautical miles moves the point
d/60 degrees along a horizontal chord, independently of the chord length)
and in `WaypointCalculator.get_waypoints`'s segment conversion (on a
horizontal path of X degrees a waypoint is emitted exactly when the spacing
is at most 60·X); but `BetterRouteFinder.get_waypoints` converts segment
lengths with 53.4 instead (see the counterexample). -/
theorem c3_uniform60_amended :
    (∀ a b d : ℚ, a < b → 0 ≤ d → d ≤ 60 * (b - a) →
      getBisectedPoint gQ (a, 0) (b, 0) d = .ok (a + d / 60, 0)) ∧
    (∀ (X speed time : ℚ) (cnt fuel : ℕ), 0 ≤ X → 0 < speed * time →
      ⌊60 * X / (speed * time)⌋₊ + 2 ≤ fuel →
      ((speed * time ≤ 60 * X →
        waypointCalcGetWaypoints gQ fuel [(0, 0), (X, 0)] speed time cnt ≠ .ok []) ∧
       (60 * X < speed * time →
        waypointCalcGetWaypoints gQ fuel [(0, 0), (X, 0)] speed time cnt = .ok []))) := by
  constructor
  · intro a b d hab hd0 hdle
    have hdist : gQ.dist (a, 0) (b, 0) = b - a := by
      rw [gQ_dist_horiz, abs_of_nonneg (by linarith)]
    have hden : (0 : ℚ) < (b - a) * 60 := by nlinarith
    rw [getBisectedPoint]
    simp only [hdist]
    rw [if_neg (ne_of_gt hden), interpolateNormalized]
    by_cases hzero : d / ((b - a) * 60) ≤ 0
    · rw [if_pos hzero]
      have hd0' : d = 0 := by
        rcases lt_or_eq_of_le hd0 with h | h
        · exfalso
          have : 0 < d / ((b - a) * 60) := div_pos h hden
          linarith
        · exact h.symm
      subst hd0'
      norm_num
    · rw [if_neg hzero]
      by_cases hone : 1 ≤ d / ((b - a) * 60)
      · rw [if_pos hone]
        have h1 : (b - a) * 60 ≤ d := by
          rw [le_div_iff₀ hden, one_mul] at hone
          exact hone
        have hb : b = a + d / 60 := by linarith
        rw [hb]
      · rw [if_neg hone]
        have hba : b - a ≠ 0 := by linarith
        refine congrArg Except.ok ?_
        simp only [Prod.mk.injEq]
        constructor
        · field_simp
          ring
        · ring
  · intro X speed time cnt fuel hX hS hfuel
    have h := waypointCalcGetWaypoints_horiz X speed time cnt fuel hX hS hfuel
    constructor
    · intro hle hok
      rw [h] at hok
      have hlist := WalkOut.ok.inj hok
      have hm1 : 1 ≤ ⌊60 * X / (speed * time)⌋₊ := by
        apply Nat.le_floor
        rw [le_div_iff₀ hS]
        push_cast
        linarith
      have : ((List.range ⌊60 * X / (speed * time)⌋₊).map
          fun k : ℕ => ((((k : ℚ) + 1) * (speed * time) / 60, 0) : Pt)).length = 0 := by
        rw [hlist]
        rfl
      simp only [List.length_map, List.length_range] at this
      omega
    · intro hlt
      rw [h]
      have hm0 : ⌊60 * X / (speed * time)⌋₊ = 0 := by
        rw [Nat.floor_eq_zero, div_lt_one hS]
        linarith
      rw [hm0]
      rfl

/-- Witness for the amended C3: bisecting 30 nm along the chord from (0,0)
to (3,0) lands at longitude 1/2 = 30/60 degrees; a 60 nm path with spacing
6 emits waypoints; the same path with spacing 100 emits none. -/
theorem c3_uniform60_amended_witness :
    getBisectedPoint gQ (0, 0) (3, 0) 30 = .ok (0 + 30 / 60, 0) ∧
    waypointCalcGetWaypoints gQ 12 [(0, 0), (1, 0)] 6 1 3 ≠ .ok [] ∧
    waypointCalcGetWaypoints gQ 3 [(0, 0), (1, 0)] 100 1 3 = .ok [] :=
  ⟨c3_uniform60_amended.1 0 3 30 (by norm_num) (by norm_num) (by norm_num),
   (c3_uniform60_amended.2 1 6 1 3 12 (by norm_num) (by norm_num) (by norm_num)).1
     (by norm_num),
   (c3_uniform60_amended.2 1 100 1 3 3 (by norm_num) (by norm_num)
     (by
       have h : ⌊60 * 1 / ((100 : ℚ) * 1)⌋₊ = 0 := Nat.floor_eq_zero.mpr (by norm_num)
       omega)).2
     (by norm_num)⟩

/-- The taxicab metric of `gQ` vanishes exactly on equal points, like the
Euclidean `Point.distance` it stands in for. -/
theorem gQ_dist_eq_zero (p q : Pt) : gQ.dist p q = 0 ↔ p = q := by
  rcases p with ⟨px, py⟩
  rcases q with ⟨qx, qy⟩
  simp only [gQ, Prod.mk.injEq]
  constructor
  · intro h
    have h1 : |qx - px| = 0 := by
      nlinarith [abs_nonneg (qx - px), abs_nonneg (qy - py)]
    have h2 : |qy - py| = 0 := by
      nlinarith [abs_nonneg (qx - px), abs_nonneg (qy - py)]
    rw [abs_eq_zero, sub_eq_zero] at h1 h2
    exact ⟨h1.symm, h2.symm⟩
  · rintro ⟨rfl, rfl⟩
    simp

/-- The taxicab metric of `gQ` is nonnegative, like the Euclidean metric. -/
theorem gQ_dist_nonneg (p q : Pt) : 0 ≤ gQ.dist p q := by
  simp only [gQ]
  positivity

/-- C8: for a chord metric that vanishes exactly on coincident points (as the
Euclidean `Point.distance` does), `get_bisected_point` raises its
`ZeroDivisionError` exactly when p1 = p2; for distinct points and a distance
within the chord it returns the linear interpolation of the chord at the
fraction `d / (chord length in degrees * 60)`. -/
theorem c8_bisect_division_and_lerp (g : Geo) (p1 p2 : Pt) (d : ℚ)
    (hmetric : ∀ p q : Pt, g.dist p q = 0 ↔ p = q)
    (hnn : ∀ p q : Pt, 0 ≤ g.dist p q) :
    ((getBisectedPoint g p1 p2 d = .error .zeroDivisionError) ↔ p1 = p2) ∧
    (p1 ≠ p2 → 0 ≤ d → d ≤ 60 * g.dist p1 p2 →
      getBisectedPoint g p1 p2 d =
        .ok (p1.1 + d / (g.dist p1 p2 * 60) * (p2.1 - p1.1),
             p1.2 + d / (g.dist p1 p2 * 60) * (p2.2 - p1.2))) := by
  constructor
  · rw [getBisectedPoint]
    constructor
    · intro h
      by_cases hz : g.dist p1 p2 * 60 = 0
      · have : g.dist p1 p2 = 0 := by linarith [mul_eq_zero.mp hz]
        exact (hmetric p1 p2).mp this
      · rw [if_neg hz] at h
        cases h
    · intro h
      have hz : g.dist p1 p2 * 60 = 0 := by
        rw [(hmetric p1 p2).mpr h]
        ring
      rw [if_pos hz]
  · intro hne hd0 hdle
    have hpos : 0 < g.dist p1 p2 :=
      lt_of_le_of_ne (hnn p1 p2) fun h => hne ((hmetric p1 p2).mp h.symm)
    have hden : (0 : ℚ) < g.dist p1 p2 * 60 := by positivity
    rw [getBisectedPoint]
    rw [if_neg (ne_of_gt hden), interpolateNormalized]
    by_cases hzero : d / (g.dist p1 p2 * 60) ≤ 0
    · rw [if_pos hzero]
      have hd0' : d = 0 := by
        rcases lt_or_eq_of_le hd0 with h | h
        · exact absurd (div_pos h hden) (by linarith)
        · exact h.symm
      subst hd0'
      refine congrArg Except.ok ?_
      rcases p1 with ⟨x, y⟩
      simp only [Prod.mk.injEq]
      constructor <;> ring
    · rw [if_neg hzero]
      by_cases hone : 1 ≤ d / (g.dist p1 p2 * 60)
      · rw [if_pos hone]
        have h1 : g.dist p1 p2 * 60 ≤ d := by
          rw [le_div_iff₀ hden, one_mul] at hone
          exact hone
        have hdeq : d = g.dist p1 p2 * 60 := by linarith
        subst hdeq
        refine congrArg Except.ok ?_
        rcases p2 with ⟨x2, y2⟩
        simp only [Prod.mk.injEq]
        have hfrac : g.dist p1 (x2, y2) * 60 / (g.dist p1 (x2, y2) * 60) = 1 :=
          div_self (ne_of_gt hden)
        rw [hfrac]
        constructor <;> ring
      · rw [if_neg hone]

/-- Witness for C8 with the taxicab chord metric at p1 = (0,0), p2 = (3,4),
d = 210 (the chord is 7 degrees, 420 nm): the error condition bites exactly
on coincident endpoints, and the returned point is the half-chord. -/
theorem c8_bisect_division_and_lerp_witness :
    ((getBisectedPoint gQ (0, 0) (3, 4) 210 = .error .zeroDivisionError) ↔
      ((0, 0) : Pt) = (3, 4)) ∧
    (((0, 0) : Pt) ≠ (3, 4) → (0 : ℚ) ≤ 210 → (210 : ℚ) ≤ 60 * gQ.dist (0, 0) (3, 4) →
      getBisectedPoint gQ (0, 0) (3, 4) 210 =
        .ok ((0 : ℚ) + 210 / (gQ.dist (0, 0) (3, 4) * 60) * (3 - 0),
             (0 : ℚ) + 210 / (gQ.dist (0, 0) (3, 4) * 60) * (4 - 0))) :=
  c8_bisect_division_and_lerp gQ (0, 0) (3, 4) 210 gQ_dist_eq_zero gQ_dist_nonneg

/-- The mutable search state of the unknown-route chaining loop of
`BetterRouteFinder.get_next_waypoints_with_speed_and_heading_unknown_route`
(`better_route_finder.py` lines 270-295): current query position and the
two escalating thresholds. -/
structure SearchState where
  pos : Pt
  distThr : ℚ
  headThr : ℚ
deriving DecidableEq, Repr

/-- Lines 270-277: the search begins at the vessel position with
`distance_threshold = 5` nm and `heading_threshold = 5` degrees. -/
def searchInit (lon lat : ℚ) : SearchState :=
  { pos := (lon, lat), distThr := 5, headThr := 5 }

/-- Lines 284-294, the body run after a failed match: move 10 nm along the
current heading with the geodesic destination, then widen both thresholds,
capped at `max_distance_threshold = 100` and `max_heading_threshold = 45`. -/
def searchStep (g : Geo) (heading : ℚ) (s : SearchState) : SearchState :=
  { pos := g.geoDest 10 s.pos heading
    distThr := min (s.distThr + 25) 100
    headThr := min (s.headThr + 5) 45 }

/-- The `while not route` loop of lines 279-294, with the matcher
(`find_nearest_route_with_heading` at the current position and thresholds)
abstracted as `matchAt` and the iterations bounded by fuel; the Python loop
itself has no bound, so `none` for every fuel models divergence. -/
def searchLoop {α : Type} (g : Geo) (heading : ℚ) (matchAt : SearchState → Option α) :
    ℕ → SearchState → Option α
  | 0, _ => none
  | fuel + 1, s =>
    match matchAt s with
    | some r => some r
    | none => searchLoop g heading matchAt fuel (searchStep g heading s)

/-- Thresholds along the failed-match iterates stay within their caps and at
least at their starting values. -/
theorem searchIterate_bounds (g : Geo) (heading lon lat : ℚ) (n : ℕ) :
    5 ≤ ((searchStep g heading)^[n] (searchInit lon lat)).distThr ∧
    ((searchStep g heading)^[n] (searchInit lon lat)).distThr ≤ 100 ∧
    5 ≤ ((searchStep g heading)^[n] (searchInit lon lat)).headThr ∧
    ((searchStep g heading)^[n] (searchInit lon lat)).headThr ≤ 45 := by
  induction n with
  | zero =>
    refine ⟨le_refl _, ?_, le_refl _, ?_⟩ <;> norm_num [searchInit]
  | succ n ih =>
    obtain ⟨h1, h2, h3, h4⟩ := ih
    rw [Function.iterate_succ_apply']
    refine ⟨?_, ?_, ?_, ?_⟩
    · simp only [searchStep, le_min_iff]
      constructor <;> linarith
    · simp only [searchStep]
      exact min_le_right _ _
    · simp only [searchStep, le_min_iff]
      constructor <;> linarith
    · simp only [searchStep]
      exact min_le_right _ _

/-- C4: within one chaining attempt the search starts with thresholds 5 nm
and 5 degrees; after every failed match attempt the loop recurses on the
state advanced 10 nm along the heading with thresholds updated to
`min(dist+25, 100)` and `min(head+5, 45)`; along the iterates both
thresholds are monotonically non-decreasing and never exceed 100 nm
and 45 degrees. -/
theorem c4_search_thresholds {α : Type} (g : Geo) (heading lon lat : ℚ) (n fuel : ℕ)
    (matchAt : SearchState → Option α) (s : SearchState)
    (hm : matchAt s = none) :
    (searchInit lon lat).distThr = 5 ∧ (searchInit lon lat).headThr = 5 ∧
    searchLoop g heading matchAt (fuel + 1) s =
      searchLoop g heading matchAt fuel (searchStep g heading s) ∧
    (searchStep g heading s).pos = g.geoDest 10 s.pos heading ∧
    (searchStep g heading s).distThr = min (s.distThr + 25) 100 ∧
    (searchStep g heading s).headThr = min (s.headThr + 5) 45 ∧
    ((searchStep g heading)^[n] (searchInit lon lat)).distThr ≤
      ((searchStep g heading)^[n + 1] (searchInit lon lat)).distThr ∧
    ((searchStep g heading)^[n] (searchInit lon lat)).headThr ≤
      ((searchStep g heading)^[n + 1] (searchInit lon lat)).headThr ∧
    ((searchStep g heading)^[n] (searchInit lon lat)).distThr ≤ 100 ∧
    ((searchStep g heading)^[n] (searchInit lon lat)).headThr ≤ 45 := by
  obtain ⟨hb1, hb2, hb3, hb4⟩ := searchIterate_bounds g heading lon lat n
  refine ⟨rfl, rfl, ?_, rfl, rfl, rfl, ?_, ?_, hb2, hb4⟩
  · rw [searchLoop, hm]
  · rw [Function.iterate_succ_apply']
    simp only [searchStep, le_min_iff]
    constructor <;> linarith
  · rw [Function.iterate_succ_apply']
    simp only [searchStep, le_min_iff]
    constructor <;> linarith

/-- Witness for C4 at the concrete geometry `gQ`, heading 0, origin (0,0),
iterate 2, a matcher that never matches, and one unit of fuel. -/
theorem c4_search_thresholds_witness :
    (searchInit 0 0).distThr = 5 ∧ (searchInit 0 0).headThr = 5 ∧
    searchLoop gQ 0 (fun _ => (none : Option Unit)) (1 + 1) (searchInit 0 0) =
      searchLoop gQ 0 (fun _ => (none : Option Unit)) 1
        (searchStep gQ 0 (searchInit 0 0)) ∧
    (searchStep gQ 0 (searchInit 0 0)).pos = gQ.geoDest 10 (searchInit 0 0).pos 0 ∧
    (searchStep gQ 0 (searchInit 0 0)).distThr = min ((searchInit 0 0).distThr + 25) 100 ∧
    (searchStep gQ 0 (searchInit 0 0)).headThr = min ((searchInit 0 0).headThr + 5) 45 ∧
    ((searchStep gQ 0)^[2] (searchInit 0 0)).distThr ≤
      ((searchStep gQ 0)^[2 + 1] (searchInit 0 0)).distThr ∧
    ((searchStep gQ 0)^[2] (searchInit 0 0)).headThr ≤
      ((searchStep gQ 0)^[2 + 1] (searchInit 0 0)).headThr ∧
    ((searchStep gQ 0)^[2] (searchInit 0 0)).distThr ≤ 100 ∧
    ((searchStep gQ 0)^[2] (searchInit 0 0)).headThr ≤ 45 :=
  c4_search_thresholds gQ 0 0 0 2 1 (fun _ => (none : Option Unit)) (searchInit 0 0) rfl

/-- The unknown-route chaining loop, run with a matcher that never finds a
route, returns nothing no matter how many iterations it is given: the
`while not route` loop of `better_route_finder.py` lines 279-294 has no hop
cap and never terminates in that situation. -/
def searchLoopDiverges : Prop :=
  ∀ fuel : ℕ,
    searchLoop (α := Unit) gQ 0 (fun _ => none) fuel (searchInit 0 0) = none

/-- C9 counterexample: the chaining loop of
`get_next_waypoints_with_speed_and_heading_unknown_route` has no ceiling on
the number of hops; with a matcher that never matches it runs forever
instead of terminating with a non-fatal no-further-route outcome. -/
theorem c9_no_hop_cap_counterexample : searchLoopDiverges := by
  have h : ∀ (fuel : ℕ) (s : SearchState),
      searchLoop (α := Unit) gQ 0 (fun _ => none) fuel s = none := by
    intro fuel
    induction fuel with
    | zero => intro s; rfl
    | succ n ih =>
      intro s
      rw [searchLoop]
      exact ih _
  intro fuel
  exact h fuel _

/-- The threshold grid tried by `get_possible_ship_route`
(`better-ship-agent-chat.py` lines 75-76): `heading_threshold` in
`range(5, 46, 5)` crossed with `distance_threshold` in `range(25, 201, 25)`. -/
def shipAgentThresholdGrid : List (ℕ × ℕ) :=
  ((List.range 9).map fun i => 5 + 5 * i).flatMap fun ht =>
    ((List.range 8).map fun j => 25 + 25 * j).map fun dt => (ht, dt)

/-- Embeds `get_possible_ship_route` (`better-ship-agent-chat.py` lines
69-103): try each (heading_threshold, distance_threshold) pair in grid
order; `attempt dt ht` is `none` when `find_nearest_route_with_heading`
finds nothing at those thresholds (the loop continues) and `some r` when a
route is found, where `r` is the final searoute-derived value the function
then returns (itself possibly `none`); if the whole grid is exhausted the
function returns `None`. -/
def getPossibleShipRoute {α : Type} (attempt : ℕ → ℕ → Option (Option α)) : Option α :=
  match shipAgentThresholdGrid.findSome? (fun p => attempt p.2 p.1) with
  | some r => r
  | none => none

/-- C9 (amended): the `BetterRouteFinder` chaining loop itself has no hop
cap (see the counterexample), but the agent-chat driver
`get_possible_ship_route` bounds the search to the fixed 9 × 8 = 72
threshold grid and treats exhaustion as a non-fatal `None` result. -/
theorem c9_bounded_grid_amended {α : Type} (attempt : ℕ → ℕ → Option (Option α))
    (h : ∀ dt ht, attempt dt ht = none) :
    getPossibleShipRoute attempt = none ∧ shipAgentThresholdGrid.length = 72 := by
  constructor
  · rw [getPossibleShipRoute]
    have hn : shipAgentThresholdGrid.findSome? (fun p => attempt p.2 p.1) = none :=
      List.findSome?_eq_none_iff.mpr fun x _ => h x.2 x.1
    rw [hn]
  · rfl

/-- Witness for the amended C9: a finder that never matches exhausts the 72
attempts and yields `None`. -/
theorem c9_bounded_grid_amended_witness :
    getPossibleShipRoute (α := Unit) (fun _ _ => none) = none ∧
    shipAgentThresholdGrid.length = 72 :=
  c9_bounded_grid_amended (fun _ _ => none) (fun _ _ => rfl)

/-- The segment-locating loop of `_get_next_waypoints_internal`
(`better_route_finder.py` lines 479-486): walk the consecutive segment
pairs accumulating cumulative length; `best` holds the last index whose
cumulative span contains the projection distance (`current_segment_idx`,
initially 0).  The write-only `segment_distances` list of the source is
omitted (never read). -/
def currentSegmentIdxGo (g : Geo) (proj : ℚ) :
    List (Pt × Pt) → ℕ → ℚ → ℕ → ℕ
  | [], _, _, best => best
  | (a, b) :: rest, i, cum, best =>
    let d := g.dist a b
    let best' := if cum ≤ proj ∧ proj ≤ cum + d then i else best
    currentSegmentIdxGo g proj rest (i + 1) (cum + d) best'

/-- `current_segment_idx` for a polyline and a projection distance. -/
def currentSegmentIdx (g : Geo) (coords : List Pt) (proj : ℚ) : ℕ :=
  currentSegmentIdxGo g proj (coords.zip coords.tail) 0 0 0

/-- Embeds `_get_next_waypoints_internal` (`better_route_finder.py` lines
448-513), textually identical to
`WaypointCalculator.get_next_waypoints_internal`
(`maritime/waypoint_calculator.py` lines 71-129) and to the body of
`RouteFinder.get_next_waypoints` (`route_finder.py` lines 237-306): project
the point onto the route, locate the enclosing segment, go forward unless
the absolute heading difference to the segment bearing lies strictly
between 90° and 270°, then collect up to `num_waypoints` subsequent
vertices in the chosen direction. -/
def getNextWaypointsInternal (g : Geo) (coords : List Pt) (point : Pt)
    (heading : ℚ) (numWaypoints : ℕ) : List Pt :=
  let projDistance := g.projOnto coords point
  let csi := currentSegmentIdx g coords projDistance
  let forwardDirection : Bool :=
    if csi < coords.length - 1 then
      let segmentHeading := g.bearing (coords.getD csi (0, 0)) (coords.getD (csi + 1) (0, 0))
      let headingDiff := |heading - segmentHeading|
      if 90 < headingDiff ∧ headingDiff < 270 then false else true
    else true
  let waypoints :=
    if forwardDirection then (coords.drop (csi + 1)).take numWaypoints
    else ((coords.take (csi + 1)).reverse).take numWaypoints
  waypoints.take numWaypoints

/-- The circular heading difference `min(|h1-h2|, 360-|h1-h2|)` used
throughout the matcher (spec §4.1 `circular_difference`). -/
def circularDiff (h1 h2 : ℚ) : ℚ := min |h1 - h2| (360 - |h1 - h2|)

/-- The reverse-direction test of the vertex walk — `90 < |h - b| < 270` on
headings — is exactly "circular difference exceeds 90°". -/
theorem reverse_iff_circularDiff_gt (h b : ℚ) :
    (90 < |h - b| ∧ |h - b| < 270) ↔ 90 < circularDiff h b := by
  unfold circularDiff
  rw [lt_min_iff]
  constructor
  · rintro ⟨h1, h2⟩
    exact ⟨h1, by linarith⟩
  · rintro ⟨h1, h2⟩
    exact ⟨h1, by linarith⟩

/-- The located segment index never exceeds the index range of the pair
list it scanned. -/
theorem currentSegmentIdxGo_le (g : Geo) (proj : ℚ) :
    ∀ (pairs : List (Pt × Pt)) (i : ℕ) (cum : ℚ) (best : ℕ),
      currentSegmentIdxGo g proj pairs i cum best ≤ max best (i + pairs.length - 1) := by
  intro pairs
  induction pairs with
  | nil =>
    intro i cum best
    rw [currentSegmentIdxGo]
    omega
  | cons p rest ih =>
    intro i cum best
    rcases p with ⟨a, b⟩
    rw [currentSegmentIdxGo]
    have hrec := ih (i + 1) (cum + g.dist a b)
      (if cum ≤ proj ∧ proj ≤ cum + g.dist a b then i else best)
    refine le_trans hrec ?_
    simp only [List.length_cons]
    split
    · omega
    · omega

/-- On a polyline with at least two vertices the located segment index is at
most `length - 2`. -/
theorem currentSegmentIdx_le (g : Geo) (coords : List Pt) (proj : ℚ)
    (h2 : 2 ≤ coords.length) :
    currentSegmentIdx g coords proj ≤ coords.length - 2 := by
  unfold currentSegmentIdx
  have hlen : (coords.zip coords.tail).length = coords.length - 1 := by
    rw [List.length_zip, List.length_tail]
    omega
  have := currentSegmentIdxGo_le g proj (coords.zip coords.tail) 0 0 0
  rw [hlen] at this
  omega

/-- C7: the next-vertices query reverses exactly when the circular
difference between the query heading and the enclosing segment's bearing
exceeds 90° (forward at exactly 90°), and returns at most the requested
number of subsequent vertices in the chosen direction, truncated at the
path end. -/
theorem c7_next_vertices (g : Geo) (coords : List Pt) (point : Pt)
    (heading : ℚ) (numWaypoints : ℕ) (csi : ℕ) (b : ℚ)
    (h2 : 2 ≤ coords.length)
    (hcsi : csi = currentSegmentIdx g coords (g.projOnto coords point))
    (hb : b = g.bearing (coords.getD csi (0, 0)) (coords.getD (csi + 1) (0, 0)))
    (_hh0 : 0 ≤ heading) (_hh1 : heading < 360) (_hb0 : 0 ≤ b) (_hb1 : b < 360) :
    getNextWaypointsInternal g coords point heading numWaypoints =
      (if 90 < circularDiff heading b then
        ((coords.take (csi + 1)).reverse).take numWaypoints
      else (coords.drop (csi + 1)).take numWaypoints) ∧
    (getNextWaypointsInternal g coords point heading numWaypoints).length ≤
      numWaypoints := by
  have hle := currentSegmentIdx_le g coords (g.projOnto coords point) h2
  rw [← hcsi] at hle
  have hlt : csi < coords.length - 1 := by omega
  have hmain : getNextWaypointsInternal g coords point heading numWaypoints =
      (if 90 < circularDiff heading b then
        ((coords.take (csi + 1)).reverse).take numWaypoints
      else (coords.drop (csi + 1)).take numWaypoints) := by
    unfold getNextWaypointsInternal
    simp only [← hcsi]
    rw [if_pos hlt, ← hb]
    by_cases hrev : 90 < |heading - b| ∧ |heading - b| < 270
    · rw [if_pos hrev, if_pos ((reverse_iff_circularDiff_gt heading b).mp hrev)]
      simp [List.take_take]
    · rw [if_neg hrev,
        if_neg (fun hc => hrev ((reverse_iff_circularDiff_gt heading b).mpr hc))]
      simp [List.take_take]
  refine ⟨hmain, ?_⟩
  rw [hmain]
  split
  · exact le_trans (List.length_take_le _ _) (le_refl _)
  · exact le_trans (List.length_take_le _ _) (le_refl _)

/-- Witness for C7 on a four-vertex eastward polyline queried heading west
(180°): the enclosing segment is the first one, the circular difference is
180° > 90°, so the walk goes in reverse and is truncated at the path
start. -/
theorem c7_next_vertices_witness :
    getNextWaypointsInternal gQ [(0, 0), (1, 0), (2, 0), (3, 0)] (0, 0) 180 2 =
      (if 90 < circularDiff 180 0 then
        ((([(0, 0), (1, 0), (2, 0), (3, 0)] : List Pt).take (0 + 1)).reverse).take 2
      else (([(0, 0), (1, 0), (2, 0), (3, 0)] : List Pt).drop (0 + 1)).take 2) ∧
    (getNextWaypointsInternal gQ [(0, 0), (1, 0), (2, 0), (3, 0)] (0, 0) 180 2).length ≤ 2 :=
  c7_next_vertices gQ [(0, 0), (1, 0), (2, 0), (3, 0)] (0, 0) 180 2 0 0
    (by norm_num)
    (by norm_num [currentSegmentIdx, currentSegmentIdxGo, gQ])
    (by norm_num [gQ])
    (by norm_num) (by norm_num) (by norm_num) (by norm_num)

/-- The per-class result of `_find_single_route`: 1-based route id,
along-track projection distance, nearest point on the polyline, and the
perpendicular distance in nautical miles. -/
structure SingleRouteResult where
  routeId : ℕ
  projDistance : ℚ
  nearestPoint : Pt
  distanceNm : ℚ
deriving DecidableEq, Repr

/-- The candidate loop of `_find_single_route` (`better_route_finder.py`
lines 180-194, identical in `maritime/route_finder.py` lines 140-151):
for each candidate index, project the query point, take the nearest point
and the perpendicular distance in nautical miles (degree distance × 60),
and keep the strictly closest candidate (`none` plays `float('inf')`). -/
def findSingleBest (g : Geo) (routes : List (List Pt)) (q : Pt) :
    List ℕ → Option (ℕ × ℚ × Pt × ℚ) → Except PyErr (Option (ℕ × ℚ × Pt × ℚ))
  | [], best => .ok best
  | i :: rest, best =>
    match routes.get? i with
    | none => .error .indexError
    | some route =>
      let proj := g.projOnto route q
      let nearestPoint := g.interpAt route proj
      let distanceInNm := g.dist q nearestPoint * 60
      let best' :=
        match best with
        | none => some (i, proj, nearestPoint, distanceInNm)
        | some b =>
          if distanceInNm < b.2.2.2 then some (i, proj, nearestPoint, distanceInNm)
          else some b
      findSingleBest g routes q rest best'

/-- Embeds `_find_single_route` (`better_route_finder.py` lines 145-206 and
`maritime/route_finder.py` lines 121-161).  The rtree spatial index is
abstracted to the list of candidate indices its `nearest` query yields: an
unbuilt index is `none` (Python `None.nearest` raises `AttributeError`),
an empty index yields no candidates, and with no candidate the infinite
minimum distance fails the threshold test, giving no result. -/
def findSingleRoute (g : Geo) (idxOpt : Option (List ℕ)) (routes : List (List Pt))
    (q : Pt) (distanceThreshold : ℚ) : Except PyErr (Option SingleRouteResult) :=
  match idxOpt with
  | none => .error .attributeError
  | some cands => do
    let best ← findSingleBest g routes q cands none
    match best with
    | none => .ok none
    | some (i, proj, np, dnm) =>
      if dnm ≤ distanceThreshold then
        .ok (some { routeId := i + 1, projDistance := proj,
                    nearestPoint := np, distanceNm := dnm })
      else .ok none

/-- Lines 374-379 of `better_route_finder.py` (identical at
`route_finder.py` lines 398-403 and `maritime/route_finder.py` lines
93-98): within the heading threshold the endpoints are swapped (reverse
traversal), otherwise the natural forward orientation is kept. -/
def orientEndpoints (headingDiff headingThreshold : ℚ) (startPt endPt : Pt) : Pt × Pt :=
  if headingDiff ≤ headingThreshold then (endPt, startPt) else (startPt, endPt)

/-- A candidate accepted into `all_routes` by the matcher. -/
structure AcceptedRoute where
  routeId : ℕ
  distanceNm : ℚ
  headingDiff : ℚ
  routeHeading : ℚ
  startingPoint : Pt
  endingPoint : Pt
deriving DecidableEq, Repr

/-- The per-candidate heading check and endpoint orientation of
`find_nearest_route_with_heading` (`better_route_finder.py` lines 352-381):
compute the route heading towards the next waypoint from the projected
point, take the circular heading difference, orient the endpoints, and
append the candidate exactly when the difference is within the heading
threshold (`none` models "not appended"). -/
def candidateResult (g : Geo) (route : List Pt) (sr : SingleRouteResult)
    (heading headingThreshold : ℚ) : Option AcceptedRoute :=
  match getNextWaypointsInternal g route sr.nearestPoint heading 1 with
  | [] => none
  | w0 :: _ =>
    let routeHeading := g.bearing sr.nearestPoint w0
    let hd0 := |heading - routeHeading|
    let headingDiff := min hd0 (360 - hd0)
    let oriented := orientEndpoints headingDiff headingThreshold
      (route.headD (0, 0)) (route.getLastD (0, 0))
    if headingDiff ≤ headingThreshold then
      some { routeId := sr.routeId, distanceNm := sr.distanceNm,
             headingDiff := headingDiff, routeHeading := routeHeading,
             startingPoint := oriented.1, endingPoint := oriented.2 }
    else none

/-- One class iteration of the matcher loop (`better_route_finder.py` lines
349-381): find the single best route of the class, resolve it by id
(`_get_route_by_id`; a failed resolution would make `route.project` raise),
and run the candidate heading check.  Result: the candidates this class
appends to `all_routes`. -/
def perClassMatch (g : Geo) (idxOpt : Option (List ℕ)) (routes : List (List Pt))
    (q : Pt) (heading distThr headThr : ℚ) : Except PyErr (List AcceptedRoute) := do
  let sr? ← findSingleRoute g idxOpt routes q distThr
  match sr? with
  | none => .ok []
  | some sr =>
    match routes.get? (sr.routeId - 1) with
    | none => .error .attributeError
    | some route =>
      match candidateResult g route sr heading headThr with
      | some a => .ok [a]
      | none => .ok []

/-- `maritime/route_finder.py` lines 62-64: the maritime `RouteFinder`
skips a class whose index is `None` (`if idx is None: continue`) before
calling `_find_single_route`. -/
def maritimePerClassMatch (g : Geo) (idxOpt : Option (List ℕ)) (routes : List (List Pt))
    (q : Pt) (heading distThr headThr : ℚ) : Except PyErr (List AcceptedRoute) :=
  match idxOpt with
  | none => .ok []
  | some cands => perClassMatch g (some cands) routes q heading distThr headThr

/-- The per-class route lists and spatial indices of the catalog
(`BetterRouteFinder.__init__`, lines 33-41: the three indices start as
`None` and are set by `_build_indices`). -/
structure RouteCatalog where
  major : List (List Pt)
  middle : List (List Pt)
  minor : List (List Pt)
  majorIdx : Option (List ℕ)
  middleIdx : Option (List ℕ)
  minorIdx : Option (List ℕ)

/-- The sort key of lines 387-390: `(heading_diff * 0.9 + distance_nm * 0.1) / 2`. -/
def routeSortKey (a : AcceptedRoute) : ℚ :=
  (a.headingDiff * (9 / 10) + a.distanceNm * (1 / 10)) / 2

/-- Embeds `BetterRouteFinder.find_nearest_route_with_heading`
(`better_route_finder.py` lines 316-414): run the three class loops in
priority order, return `none` when no candidate was accepted, otherwise
sort by the weighted key and hand the sorted candidates to `onBest`, which
abstracts lines 392-414 (logging and the external searoute resolution of
the best candidate's ending point). -/
def betterFindNearestRouteWithHeading {α : Type} (g : Geo)
    (onBest : List AcceptedRoute → Option α) (cat : RouteCatalog) (q : Pt)
    (heading distThr headThr : ℚ) : Except PyErr (Option α) := do
  let a ← perClassMatch g cat.majorIdx cat.major q heading distThr headThr
  let b ← perClassMatch g cat.middleIdx cat.middle q heading distThr headThr
  let c ← perClassMatch g cat.minorIdx cat.minor q heading distThr headThr
  let allRoutes := a ++ b ++ c
  if allRoutes = [] then .ok none
  else .ok (onBest (allRoutes.mergeSort fun x y => decide (routeSortKey x ≤ routeSortKey y)))

/-- Embeds `RouteFinder.find_nearest_route_with_heading`
(`maritime/route_finder.py` lines 42-119), which differs from the better
variant only in skipping classes with a `None` index. -/
def maritimeFindNearestRouteWithHeading {α : Type} (g : Geo)
    (onBest : List AcceptedRoute → Option α) (cat : RouteCatalog) (q : Pt)
    (heading distThr headThr : ℚ) : Except PyErr (Option α) := do
  let a ← maritimePerClassMatch g cat.majorIdx cat.major q heading distThr headThr
  let b ← maritimePerClassMatch g cat.middleIdx cat.middle q heading distThr headThr
  let c ← maritimePerClassMatch g cat.minorIdx cat.minor q heading distThr headThr
  let allRoutes := a ++ b ++ c
  if allRoutes = [] then .ok none
  else .ok (onBest (allRoutes.mergeSort fun x y => decide (routeSortKey x ≤ routeSortKey y)))

/-- C5 counterexample: on a freshly constructed `BetterRouteFinder` (all
three indices still `None`, as `__init__` leaves them before
`_build_indices`), `find_nearest_route_with_heading` raises
`AttributeError` (`None.nearest`) instead of returning its no-match
result. -/
theorem c5_unbuilt_index_counterexample :
    betterFindNearestRouteWithHeading (α := Unit) gQ (fun _ => none)
      ⟨[], [], [], none, none, none⟩ (0, 0) 0 5 5 = .error .attributeError := rfl

/-- C5 (amended): the maritime `RouteFinder` matcher skips classes whose
index is unbuilt (`None`) and gets no candidates from a built-but-empty
index, returning its no-match result without error; the
`BetterRouteFinder` matcher behaves that way only for built-but-empty
indices and raises on an unbuilt one (see the counterexample). -/
theorem c5_empty_index_amended {α : Type} (g : Geo)
    (onBest : List AcceptedRoute → Option α) (cat : RouteCatalog) (q : Pt)
    (heading dt ht : ℚ)
    (hmaj : cat.majorIdx = none ∨ cat.majorIdx = some [])
    (hmid : cat.middleIdx = none ∨ cat.middleIdx = some [])
    (hmin : cat.minorIdx = none ∨ cat.minorIdx = some []) :
    maritimeFindNearestRouteWithHeading g onBest cat q heading dt ht = .ok none ∧
    (cat.majorIdx = some [] → cat.middleIdx = some [] → cat.minorIdx = some [] →
      betterFindNearestRouteWithHeading g onBest cat q heading dt ht = .ok none) := by
  rcases cat with ⟨maj, mid, mnr, majIdx, midIdx, mnrIdx⟩
  dsimp only at hmaj hmid hmin ⊢
  constructor
  · rcases hmaj with h1 | h1 <;> rcases hmid with h2 | h2 <;> rcases hmin with h3 | h3 <;>
      subst h1 <;> subst h2 <;> subst h3 <;> rfl
  · intro h1 h2 h3
    subst h1
    subst h2
    subst h3
    rfl

/-- Witness for the amended C5 at a mixed catalog: major unbuilt, middle
and minor built but empty for the maritime matcher, and an all-empty
catalog for the better matcher. -/
theorem c5_empty_index_amended_witness :
    (maritimeFindNearestRouteWithHeading (α := Unit) gQ (fun _ => none)
      ⟨[], [], [], none, some [], some []⟩ (0, 0) 0 5 5 = .ok none ∧
    (RouteCatalog.majorIdx ⟨[], [], [], none, some [], some []⟩ = some [] →
      RouteCatalog.middleIdx ⟨[], [], [], none, some [], some []⟩ = some [] →
      RouteCatalog.minorIdx ⟨[], [], [], none, some [], some []⟩ = some [] →
      betterFindNearestRouteWithHeading (α := Unit) gQ (fun _ => none)
        ⟨[], [], [], none, some [], some []⟩ (0, 0) 0 5 5 = .ok none)) ∧
    maritimeFindNearestRouteWithHeading (α := Unit) gQ (fun _ => none)
      ⟨[], [], [], some [], some [], some []⟩ (0, 0) 0 5 5 = .ok none :=
  ⟨c5_empty_index_amended gQ (fun _ => none) ⟨[], [], [], none, some [], some []⟩
      (0, 0) 0 5 5 (Or.inl rfl) (Or.inr rfl) (Or.inr rfl),
   (c5_empty_index_amended gQ (fun _ => none) ⟨[], [], [], some [], some [], some []⟩
      (0, 0) 0 5 5 (Or.inr rfl) (Or.inr rfl) (Or.inr rfl)).1⟩

/-- C6: whenever the matcher's heading difference for a candidate is within
the heading threshold the returned endpoints are oriented in reverse
(`starting_point` is the polyline's last coordinate and `ending_point` its
first), otherwise the natural forward orientation is kept; and every
candidate actually accepted into `all_routes` has its heading difference
within the threshold and hence carries the reversed orientation. -/
theorem c6_accept_orientation (g : Geo) (route : List Pt) (sr : SingleRouteResult)
    (heading ht hd : ℚ) (s e : Pt) (a : AcceptedRoute) :
    (hd ≤ ht → orientEndpoints hd ht s e = (e, s)) ∧
    (ht < hd → orientEndpoints hd ht s e = (s, e)) ∧
    (candidateResult g route sr heading ht = some a →
      a.headingDiff ≤ ht ∧ a.startingPoint = route.getLastD (0, 0) ∧
      a.endingPoint = route.headD (0, 0)) := by
  refine ⟨?_, ?_, ?_⟩
  · intro h
    rw [orientEndpoints, if_pos h]
  · intro h
    rw [orientEndpoints, if_neg (not_le.mpr h)]
  · intro h
    simp only [candidateResult] at h
    cases hwp : getNextWaypointsInternal g route sr.nearestPoint heading 1 with
    | nil =>
      rw [hwp] at h
      cases h
    | cons w0 rest =>
      rw [hwp] at h
      dsimp only at h
      by_cases hacc : min |heading - g.bearing sr.nearestPoint w0|
          (360 - |heading - g.bearing sr.nearestPoint w0|) ≤ ht
      · rw [if_pos hacc] at h
        injection h with h'
        cases h'
        refine ⟨hacc, ?_, ?_⟩
        · show (orientEndpoints _ ht (route.headD (0, 0)) (route.getLastD (0, 0))).1 =
            route.getLastD (0, 0)
          rw [orientEndpoints, if_pos hacc]
        · show (orientEndpoints _ ht (route.headD (0, 0)) (route.getLastD (0, 0))).2 =
            route.headD (0, 0)
          rw [orientEndpoints, if_pos hacc]
      · rw [if_neg hacc] at h
        cases h

/-- Witness for C6: on the eastward two-vertex route with an eastbound query
at its start, the heading difference is 0 ≤ 5, the candidate is accepted,
and its endpoints come out reversed: `starting_point` is the route's last
vertex (1,0) and `ending_point` its first vertex (0,0). -/
theorem c6_accept_orientation_witness :
    candidateResult gQ [(0, 0), (1, 0)] ⟨1, 0, (0, 0), 0⟩ 0 5 =
      some { routeId := 1, distanceNm := 0, headingDiff := 0, routeHeading := 0,
             startingPoint := (1, 0), endingPoint := (0, 0) } ∧
    (({ routeId := 1, distanceNm := 0, headingDiff := 0, routeHeading := 0,
        startingPoint := (1, 0), endingPoint := (0, 0) } : AcceptedRoute).headingDiff ≤ 5 ∧
      ({ routeId := 1, distanceNm := 0, headingDiff := 0, routeHeading := 0,
         startingPoint := (1, 0), endingPoint := (0, 0) } : AcceptedRoute).startingPoint =
        ([(0, 0), (1, 0)] : List Pt).getLastD (0, 0) ∧
      ({ routeId := 1, distanceNm := 0, headingDiff := 0, routeHeading := 0,
         startingPoint := (1, 0), endingPoint := (0, 0) } : AcceptedRoute).endingPoint =
        ([(0, 0), (1, 0)] : List Pt).headD (0, 0)) := by
  have hev : candidateResult gQ [(0, 0), (1, 0)] ⟨1, 0, (0, 0), 0⟩ 0 5 =
      some { routeId := 1, distanceNm := 0, headingDiff := 0, routeHeading := 0,
             startingPoint := (1, 0), endingPoint := (0, 0) } := by
    norm_num [candidateResult, getNextWaypointsInternal, currentSegmentIdx,
      currentSegmentIdxGo, orientEndpoints, gQ]
  exact ⟨hev,
    (c6_accept_orientation gQ [(0, 0), (1, 0)] ⟨1, 0, (0, 0), 0⟩ 0 5 0 (7, 8) (9, 10)
      { routeId := 1, distanceNm := 0, headingDiff := 0, routeHeading := 0,
        startingPoint := (1, 0), endingPoint := (0, 0) }).2.2 hev⟩
